import Mathlib

/-!
Verification of the client-side session logic of RepoCode.

Two cores are modelled, straight from the source:
* the SSE stream decode loop and the analysis-session frame dispatch of
  `frontend/src/App.jsx` (`runAnalysis`, `handleSSE`);
* the terminal command flow of
  `frontend/src/components/TerminalPanel.jsx`
  (`runCommand`, `askAI`, `approvePending`, `handleSubmit`).

React `useState` state is modelled as explicit records threaded through the
handlers.  A read of a state variable inside a handler closure sees the value
captured at the render that created the closure, not the value written by a
later setter call in the same run; where that matters (the `summary` read in
the `done` branch of `handleSSE`, App.jsx line 116) the captured value is an
explicit extra parameter.  Setter calls of the functional form
`set(prev => ...)` and plain overwrites both act on the live record.
-/

namespace RepoCode

/-! ## Analysis session (App.jsx)

A decoded SSE event is a JSON object with a `type` string and the payload
fields read by `handleSSE`; absent fields default like missing JSON keys
read as falsy/zero values. -/

structure Event where
  type : String
  current : Nat := 0
  total : Nat := 0
  file : String := ""
  analysis : String := ""
  summary : String := ""
  total_analyzed : Nat := 0
  message : String := ""
  deriving DecidableEq

structure ChatMsg where
  role : String
  content : String
  deriving DecidableEq

structure FileResult where
  path : String
  analysis : String
  deriving DecidableEq

structure ProgressInfo where
  current : Nat
  total : Nat
  file : String
  deriving DecidableEq

/-- The `useState` cells of `App` that the analysis path touches. -/
structure AppState where
  messages : List ChatMsg
  activeTab : String
  analysisResults : List FileResult
  summary : Option String
  isAnalyzing : Bool
  analyzeProgress : Option ProgressInfo
  deriving DecidableEq

/-- `handleSSE` (App.jsx lines 99-128).  `sum0` is the value of the `summary`
state variable captured by the closure at the render that created
`runAnalysis`/`handleSSE`; the `done` branch reads this captured value
(`if (!summary)`, line 116), because `setSummary` never changes the running
closure's local binding.  `none` stands for a JS-falsy captured value. -/
def handleSSE (sum0 : Option String) (repo : String) (e : Event) (s : AppState) : AppState :=
  match e.type with
  | "progress" =>
    { s with analyzeProgress := some ⟨e.current, e.total, e.file⟩ }
  | "file_result" =>
    { s with analysisResults := s.analysisResults ++ [⟨e.file, e.analysis⟩] }
  | "summary" =>
    { s with summary := some e.summary,
             messages := s.messages ++
               [⟨"assistant", "✅ Done analyzing **" ++ repo ++ "**!\n\n" ++ e.summary⟩],
             activeTab := "chat" }
  | "done" =>
    if sum0.isNone then
      { s with messages := s.messages ++
                 [⟨"assistant", "✅ Analyzed **" ++ toString e.total_analyzed ++
                   " files** from **" ++ repo ++ "**. Check Results tab."⟩],
               activeTab := "chat" }
    else s
  | "error" =>
    { s with messages := s.messages ++ [⟨"assistant", "⚠️ " ++ e.message⟩] }
  | _ => s

/-- The state reset performed at the top of `runAnalysis` (App.jsx lines 61-64). -/
def startAnalysis (s : AppState) : AppState :=
  { s with isAnalyzing := true, analysisResults := [], summary := none,
           analyzeProgress := some ⟨0, 0, ""⟩ }

/-- Dispatching a list of already-parsed events in arrival order. -/
def runEvents (sum0 : Option String) (repo : String) (events : List Event) (s : AppState) : AppState :=
  events.foldl (fun st e => handleSSE sum0 repo e st) s

/-- Per-line dispatch including the `JSON.parse` try/catch (App.jsx lines
85-88): `none` is a payload on which `JSON.parse` threw, which the empty
`catch` drops before `handleSSE` is ever reached. -/
def processEvents (sum0 : Option String) (repo : String) (events : List (Option Event)) (s : AppState) : AppState :=
  events.foldl (fun st pe => match pe with | none => st | some e => handleSSE sum0 repo e st) s

/-! ## Terminal session (components/TerminalPanel.jsx) -/

/-- One line of the terminal history log (`addLine`). -/
structure HLine where
  kind : String
  text : String
  deriving DecidableEq

/-- The `useState` cells of `TerminalPanel`. -/
structure TermState where
  history : List HLine
  input : String
  cwd : String
  mode : String
  pending : Option String
  loading : Bool
  deriving DecidableEq

/-- Response body of `POST /terminal/run`; a field is `some` when present and
JS-truthy (the code tests `data.error`, `data.stdout`, `data.stderr`). -/
structure ExecResp where
  error : Option String := none
  stdout : Option String := none
  stderr : Option String := none
  deriving DecidableEq

/-- One request issued to the execution backend. -/
structure ExecCall where
  command : String
  cwd : String
  deriving DecidableEq

/-- The execution backend: `(command, cwd)` to either a response or a thrown
network error (the `catch (e)` path). -/
abbrev ExecOracle := String → String → Except String ExecResp

/-- Response body of `POST /terminal/ai`. -/
structure AiResp where
  error : Option String := none
  command : String := ""
  deriving DecidableEq

abbrev AiOracle := String → String → Except String AiResp

/-- JS `s.startsWith(pre)`, computed on the character list. -/
def jsStartsWith (s pre : String) : Bool := pre.toList.isPrefixOf s.toList

/-- JS `s.trim()`: strip leading and trailing whitespace. -/
def jsTrim (s : String) : String :=
  ⟨((s.toList.dropWhile Char.isWhitespace).reverse.dropWhile Char.isWhitespace).reverse⟩

/-- JS `s.trimEnd()`: strip trailing whitespace. -/
def jsTrimEnd (s : String) : String :=
  ⟨(s.toList.reverse.dropWhile Char.isWhitespace).reverse⟩

/-- JS `s.slice(n)`: drop the first `n` characters. -/
def jsSlice (s : String) (n : Nat) : String := ⟨s.toList.drop n⟩

/-- `runCommand` (TerminalPanel.jsx lines 22-52).  Returns the updated state
together with the list of requests issued to the execution backend, in order.
A `data.error` response returns early (skipping the `cd` handling); a
recognized `cd` issues the second, synchronous `pwd` resolution request and
stores that request's reported stdout (trimmed) as the new `cwd`. -/
def runCommand (exec : ExecOracle) (cmd : String) (s : TermState) : TermState × List ExecCall :=
  let s1 : TermState := { s with history := s.history ++ [⟨"cmd", "$ " ++ cmd⟩], loading := true }
  match exec cmd s.cwd with
  | .error m =>
    ({ s1 with history := s1.history ++ [⟨"err", "Network error: " ++ m⟩], loading := false },
     [⟨cmd, s.cwd⟩])
  | .ok data =>
    match data.error with
    | some err =>
      ({ s1 with history := s1.history ++ [⟨"err", err⟩], loading := false }, [⟨cmd, s.cwd⟩])
    | none =>
      let s2 : TermState := { s1 with history := s1.history
          ++ (match data.stdout with | some o => [⟨"out", jsTrimEnd o⟩] | none => [])
          ++ (match data.stderr with | some e2 => [⟨"err", jsTrimEnd e2⟩] | none => []) }
      if jsStartsWith cmd "cd " then
        let newDir := jsTrim (jsSlice cmd 3)
        let target := if jsStartsWith newDir "/" then newDir else s.cwd ++ "/" ++ newDir
        match exec "pwd" target with
        | .error m =>
          ({ s2 with history := s2.history ++ [⟨"err", "Network error: " ++ m⟩], loading := false },
           [⟨cmd, s.cwd⟩, ⟨"pwd", target⟩])
        | .ok rdata =>
          match rdata.stdout with
          | some o => ({ s2 with cwd := jsTrim o, loading := false },
                       [⟨cmd, s.cwd⟩, ⟨"pwd", target⟩])
          | none => ({ s2 with loading := false }, [⟨cmd, s.cwd⟩, ⟨"pwd", target⟩])
      else ({ s2 with loading := false }, [⟨cmd, s.cwd⟩])

/-- `askAI` (TerminalPanel.jsx lines 54-72).  On success the suggested command
overwrites `pending`; it makes no request to the execution backend. -/
def askAI (ai : AiOracle) (prompt : String) (s : TermState) : TermState :=
  let s1 : TermState := { s with history := s.history ++ [⟨"ai-prompt", "🤖 " ++ prompt⟩], loading := true }
  match ai prompt s.cwd with
  | .error m =>
    { s1 with history := s1.history ++ [⟨"err", "Network error: " ++ m⟩], loading := false }
  | .ok data =>
    match data.error with
    | some err => { s1 with history := s1.history ++ [⟨"err", err⟩], loading := false }
    | none => { s1 with pending := some data.command,
                        history := s1.history ++ [⟨"ai-suggest", "Suggested: " ++ data.command⟩],
                        loading := false }

/-- The approve action (TerminalPanel.jsx lines 74-78 together with line 116):
the approve button is rendered only while `pending` is set
(`{pending && ( ... )}`), so the action exists only in the `some` case; the
handler reads `pending`, clears it, then runs the read command. -/
def approvePending (exec : ExecOracle) (s : TermState) : TermState × List ExecCall :=
  match s.pending with
  | none => (s, [])
  | some cmd => runCommand exec cmd { s with pending := none }

/-- The verbs of the `looksRaw` regex (TerminalPanel.jsx line 89). -/
def looksRawVerbs : List String :=
  ["ls", "cd", "git", "cat", "pwd", "mkdir", "pip", "npm", "python", "node",
   "echo", "grep", "find", "rm", "cp", "mv"]

/-- A JS `\w` character. -/
def isWordChar (c : Char) : Bool := c.isAlphanum || c == '_'

/-- The test `/^(ls|cd|git|...)\b/.test(text)`: some verb is a prefix and is
followed by end of string or a non-word character. -/
def looksRaw (t : String) : Bool :=
  looksRawVerbs.any fun v =>
    v.toList.isPrefixOf t.toList &&
      (match t.toList.drop v.length with
       | [] => true
       | c :: _ => !isWordChar c)

/-- `handleSubmit` (TerminalPanel.jsx lines 80-93).  Empty input or an
in-flight command (`loading`) is rejected with no effect; an accepted
submission clears the input and any pending proposal, then routes:
raw mode or raw-looking text runs directly, anything else goes to the AI. -/
def handleSubmit (exec : ExecOracle) (ai : AiOracle) (s : TermState) : TermState × List ExecCall :=
  let text := jsTrim s.input
  if text == "" || s.loading then (s, [])
  else
    let s1 : TermState := { s with input := "", pending := none }
    if s.mode = "raw" then runCommand exec text s1
    else if looksRaw text then runCommand exec text s1
    else (askAI ai text s1, [])

/-! ## Stream decoding (App.jsx, runAnalysis lines 73-90)

Text is a list of Unicode codepoints (`Nat`), the wire is a list of byte
chunks.  `TextDecoder` with `stream: true` is a streaming UTF-8 decoder that
keeps an incomplete multi-byte sequence pending across chunks. -/

/-- UTF-8 encoding of one codepoint. -/
def encChar (c : Nat) : List Nat :=
  if c < 128 then [c]
  else if c < 2048 then [192 + c / 64, 128 + c % 64]
  else if c < 65536 then [224 + c / 4096, 128 + c / 64 % 64, 128 + c % 64]
  else [240 + c / 262144, 128 + c / 4096 % 64, 128 + c / 64 % 64, 128 + c % 64]

def utf8Encode (t : List Nat) : List Nat := (t.map encChar).flatten

/-- Total length of the UTF-8 sequence announced by a lead byte. -/
def expLen (b : Nat) : Nat :=
  if b < 192 then 1 else if b < 224 then 2 else if b < 240 then 3 else 4

/-- Payload bits of a lead byte. -/
def leadVal (b : Nat) : Nat :=
  if b < 192 then b else if b < 224 then b - 192 else if b < 240 then b - 224 else b - 240

/-- Codepoint of a complete UTF-8 sequence. -/
def decVal : List Nat → Nat
  | [] => 0
  | b :: rest => rest.foldl (fun acc x => acc * 64 + (x - 128)) (leadVal b)

/-- Feed one byte to the streaming decoder: `pend` holds the bytes of a
not-yet-complete sequence; a completed sequence is emitted. -/
def u8step (pend : List Nat) (b : Nat) : List Nat × List Nat :=
  let p := pend ++ [b]
  if p.length = expLen (p.headD 0) then ([], [decVal p]) else (p, [])

/-- Feed a chunk of bytes; returns the new pending buffer and the codepoints
emitted for this chunk (`decoder.decode(value, { stream: true })`). -/
def u8run (st : List Nat × List Nat) (bytes : List Nat) : List Nat × List Nat :=
  bytes.foldl (fun st b => ((u8step st.1 b).1, st.2 ++ (u8step st.1 b).2)) st

def u8chunk (pend : List Nat) (bytes : List Nat) : List Nat × List Nat :=
  u8run (pend, []) bytes

/-- `buffer.split("\n")` followed by `buffer = lines.pop()`: the
newline-terminated segments, and the trailing unterminated fragment. -/
def splitCR : List Nat → List (List Nat) × List Nat
  | [] => ([], [])
  | c :: cs =>
    let r := splitCR cs
    if c = 10 then ([] :: r.1, r.2)
    else
      match r.1 with
      | [] => ([], c :: r.2)
      | l :: ls => ((c :: l) :: ls, r.2)

/-- How the line splitter acts at a concatenation boundary: the fragment left
by the first part merges into the first complete line of the second part, or
into its fragment when the second part completes no line. -/
def glue (f : List Nat) (ls : List (List Nat)) (f2 : List Nat) :
    List (List Nat) × List Nat :=
  match ls with
  | [] => ([], f ++ f2)
  | h :: t => ((f ++ h) :: t, f2)

/-- The codepoints of the line marker `"data: "`. -/
def dataMarker : List Nat := [100, 97, 116, 97, 58, 32]

/-- The per-line filter of the loop body (App.jsx lines 83-86): lines not
starting with `"data: "` are skipped; for the rest, `line.slice(6)` is what
reaches `JSON.parse`/`handleSSE`. -/
def emitLines (ls : List (List Nat)) : List (List Nat) :=
  ls.filterMap fun l => if dataMarker.isPrefixOf l then some (l.drop 6) else none

/-- Process one chunk of decoded text against the line buffer: append to the
buffer, split off complete lines, deliver the marked ones, keep the
unterminated fragment. -/
def procText (st : List (List Nat) × List Nat) (t : List Nat) : List (List Nat) × List Nat :=
  let r := splitCR (st.2 ++ t)
  (st.1 ++ emitLines r.1, r.2)

/-- The whole per-chunk state of the decode loop: UTF-8 pending bytes, line
buffer, and payloads delivered to the dispatcher so far. -/
structure DecodeState where
  pend : List Nat
  buf : List Nat
  out : List (List Nat)
  deriving DecidableEq

/-- One iteration of `while (true) { ... }` for one received chunk. -/
def loopStep (s : DecodeState) (chunk : List Nat) : DecodeState :=
  let d := u8chunk s.pend chunk
  let r := procText (s.out, s.buf) d.2
  ⟨d.1, r.2, r.1⟩

/-- The decode loop over the full list of received chunks, from the initial
empty buffer; at `done` the residual `buf` is simply dropped. -/
def runLoop (chunks : List (List Nat)) : DecodeState :=
  chunks.foldl loopStep ⟨[], [], []⟩

/-- A complete well-formed frame for body `b`: `"data: " ++ b ++ "\n"`. -/
def frameOf (b : List Nat) : List Nat := dataMarker ++ b ++ [10]

/-- The text of a stream carrying the given frame bodies followed by a
trailing unterminated fragment. -/
def streamText (bodies : List (List Nat)) (frag : List Nat) : List Nat :=
  (bodies.map frameOf).flatten ++ frag

/-! ## Claims about the analysis session -/

/-- Claim C1 (counterexample): the dispatcher does not seal the session after
a terminal frame — after a `summary` frame has been handled, a later
`progress` frame still overwrites the recorded progress, so the session state
is not unchanged. -/
theorem post_terminal_frame_changes_state_cex :
    (handleSSE none "demo/repo" { type := "progress", current := 2, total := 3, file := "b.py" }
      (handleSSE none "demo/repo" { type := "summary", summary := "ok" }
        ⟨[], "results", [], none, true, some ⟨0, 0, ""⟩⟩)).analyzeProgress
    ≠ (handleSSE none "demo/repo" { type := "summary", summary := "ok" }
        ⟨[], "results", [], none, true, some ⟨0, 0, ""⟩⟩).analyzeProgress := by
  decide

/-- Claim C1 (amended): frames received after a `summary` or `error` frame has
been handled are not ignored: the dispatcher applies the same per-type effect
as in a running session — a later `progress` frame overwrites the progress and
a later `file_result` frame appends to the results. -/
theorem post_terminal_frames_processed (sum0 : Option String)
    (repo x msg f a pth : String) (c t : Nat) (s : AppState) :
    ((handleSSE sum0 repo { type := "progress", current := c, total := t, file := f }
        (handleSSE sum0 repo { type := "summary", summary := x } s)).analyzeProgress
      = some ⟨c, t, f⟩)
  ∧ ((handleSSE sum0 repo { type := "file_result", file := pth, analysis := a }
        (handleSSE sum0 repo { type := "summary", summary := x } s)).analysisResults
      = (handleSSE sum0 repo { type := "summary", summary := x } s).analysisResults ++ [⟨pth, a⟩])
  ∧ ((handleSSE sum0 repo { type := "progress", current := c, total := t, file := f }
        (handleSSE sum0 repo { type := "error", message := msg } s)).analyzeProgress
      = some ⟨c, t, f⟩)
  ∧ ((handleSSE sum0 repo { type := "file_result", file := pth, analysis := a }
        (handleSSE sum0 repo { type := "error", message := msg } s)).analysisResults
      = (handleSSE sum0 repo { type := "error", message := msg } s).analysisResults ++ [⟨pth, a⟩]) :=
  ⟨rfl, rfl, rfl, rfl⟩

/-- Claim C2 (code bug): in a fresh session (captured `summary` closure value
is null) a `done` frame processed after a `summary` frame is *not* a no-op:
the `done` branch tests the stale closure-captured `summary` instead of the
just-recorded one, so a second completion message is appended. -/
theorem done_after_summary_emits_again :
    (let s0 : AppState := startAnalysis ⟨[], "results", [], none, false, none⟩
     let s1 := handleSSE none "demo/repo" { type := "summary", summary := "ok" } s0
     let s2 := handleSSE none "demo/repo" { type := "done", total_analyzed := 2 } s1
     s1.summary = some "ok" ∧ s2.messages.length = s1.messages.length + 1 ∧ s2 ≠ s1) := by
  decide

/-- Claim C4: the event sequence `progress(1,3,"a.py")`, `file_result("a.py","x")`,
`progress(2,3,"b.py")`, `file_result("b.py","y")`, `summary("ok")` processed
from the freshly started session yields results in arrival order, progress
reflecting the last progress frame, and the recorded summary (the session is
completed by the summary frame). -/
theorem analysis_scenario_final_state (s0 : AppState) (sum0 : Option String) (repo : String) :
    (let s := runEvents sum0 repo
      [ { type := "progress", current := 1, total := 3, file := "a.py" },
        { type := "file_result", file := "a.py", analysis := "x" },
        { type := "progress", current := 2, total := 3, file := "b.py" },
        { type := "file_result", file := "b.py", analysis := "y" },
        { type := "summary", summary := "ok" } ] (startAnalysis s0)
     s.analysisResults = [⟨"a.py", "x"⟩, ⟨"b.py", "y"⟩]
     ∧ s.analyzeProgress = some ⟨2, 3, "b.py"⟩
     ∧ s.summary = some "ok") := by
  exact ⟨rfl, rfl, rfl⟩

/-- Claim C5: a line whose payload fails to parse is dropped with no change to
the session state, a frame with an unrecognized type is a no-op, and in both
cases the remaining frames of the stream are processed exactly as if the bad
frame had not been there. -/
theorem malformed_and_unknown_frames_dropped (sum0 : Option String) (repo : String)
    (s : AppState) (e : Event) (rest : List (Option Event))
    (h1 : e.type ≠ "progress") (h2 : e.type ≠ "file_result") (h3 : e.type ≠ "summary")
    (h4 : e.type ≠ "done") (h5 : e.type ≠ "error") :
    processEvents sum0 repo (none :: rest) s = processEvents sum0 repo rest s
  ∧ handleSSE sum0 repo e s = s
  ∧ processEvents sum0 repo (some e :: rest) s = processEvents sum0 repo rest s := by
  have hno : handleSSE sum0 repo e s = s := by
    unfold handleSSE
    split <;> simp_all
  refine ⟨rfl, hno, ?_⟩
  simp only [processEvents, List.foldl_cons, hno]

/-- Witness for claim C5 at a concrete dropped line and a concrete
`heartbeat`-typed frame. -/
theorem malformed_and_unknown_frames_dropped_witness :
    (("heartbeat" : String) ≠ "progress")
  ∧ (processEvents none "r" [none] ⟨[], "chat", [], none, false, none⟩
        = processEvents none "r" [] ⟨[], "chat", [], none, false, none⟩
     ∧ handleSSE none "r" { type := "heartbeat" } ⟨[], "chat", [], none, false, none⟩
        = ⟨[], "chat", [], none, false, none⟩
     ∧ processEvents none "r" [some { type := "heartbeat" }] ⟨[], "chat", [], none, false, none⟩
        = processEvents none "r" [] ⟨[], "chat", [], none, false, none⟩) :=
  ⟨by decide,
   malformed_and_unknown_frames_dropped none "r" ⟨[], "chat", [], none, false, none⟩
     { type := "heartbeat" } [] (by decide) (by decide) (by decide) (by decide) (by decide)⟩

/-! ## Helper lemmas about `runCommand` -/

/-- `runCommand` never touches the `pending` cell. -/
theorem runCommand_pending (exec : ExecOracle) (cmd : String) (s : TermState) :
    (runCommand exec cmd s).1.pending = s.pending := by
  simp only [runCommand]
  split
  · rfl
  · split
    · rfl
    · split
      · split
        · rfl
        · split <;> rfl
      · rfl

/-- A command recognized as a directory change is not the literal `pwd`. -/
theorem cd_command_ne_pwd (cmd : String) (h : jsStartsWith cmd "cd " = true) : cmd ≠ "pwd" := by
  intro he
  subst he
  exact absurd h (by decide)

/-- The requests one `runCommand` issues: either just the command itself, or,
for a recognized `cd`, the command followed by the `pwd` resolution request. -/
theorem runCommand_calls_shape (exec : ExecOracle) (cmd : String) (s : TermState) :
    (runCommand exec cmd s).2 = [⟨cmd, s.cwd⟩]
    ∨ (jsStartsWith cmd "cd " = true
       ∧ ∃ t, (runCommand exec cmd s).2 = [⟨cmd, s.cwd⟩, ⟨"pwd", t⟩]) := by
  simp only [runCommand]
  split
  · exact .inl rfl
  · split
    · exact .inl rfl
    · split
      · next hcd =>
        refine .inr ⟨hcd,
          if jsStartsWith (jsTrim (jsSlice cmd 3)) "/" = true then jsTrim (jsSlice cmd 3)
          else s.cwd ++ "/" ++ jsTrim (jsSlice cmd 3), ?_⟩
        split
        · rfl
        · split <;> rfl
      · exact .inl rfl

/-- Exactly one of the issued requests carries the executed command. -/
theorem runCommand_count_self (exec : ExecOracle) (cmd : String) (s : TermState) :
    ((runCommand exec cmd s).2.countP fun c => c.command == cmd) = 1 := by
  rcases runCommand_calls_shape exec cmd s with h | ⟨hcd, t, h⟩ <;> rw [h]
  · simp [List.countP_cons]
  · have hne : cmd ≠ "pwd" := cd_command_ne_pwd cmd hcd
    simp [List.countP_cons, Ne.symm hne]

/-- No issued request carries a command other than the executed one or the
`pwd` resolution request. -/
theorem runCommand_count_other (exec : ExecOracle) (cmd : String) (s : TermState)
    (x : String) (hx : x ≠ cmd) (hp : x ≠ "pwd") :
    ((runCommand exec cmd s).2.countP fun c => c.command == x) = 0 := by
  rcases runCommand_calls_shape exec cmd s with h | ⟨hcd, t, h⟩ <;> rw [h] <;>
    simp [List.countP_cons, Ne.symm hx, Ne.symm hp]

/-- A successful AI suggestion: the suggested command overwrites `pending`. -/
theorem askAI_ok (ai : AiOracle) (p cmdS : String) (st : TermState)
    (h : ai p st.cwd = .ok ⟨none, cmdS⟩) :
    askAI ai p st = { st with
      history := st.history ++ [⟨"ai-prompt", "🤖 " ++ p⟩]
                   ++ [⟨"ai-suggest", "Suggested: " ++ cmdS⟩],
      pending := some cmdS, loading := false } := by
  simp only [askAI, h]

/-- With nothing pending there is no approve button, hence no effect. -/
theorem approvePending_none (exec : ExecOracle) (st : TermState) (h : st.pending = none) :
    approvePending exec st = (st, []) := by
  simp only [approvePending, h]

/-- Approving a pending command clears it and runs it. -/
theorem approvePending_some (exec : ExecOracle) (st : TermState) (cmd : String)
    (h : st.pending = some cmd) :
    approvePending exec st = runCommand exec cmd { st with pending := none } := by
  simp only [approvePending, h]

/-! ## Claims about the terminal session -/

/-- Claim C6: after `propose(A)` then `propose(B)` (two successful AI
suggestions), the newest suggestion has overwritten the older one, and
approving executes `B` exactly once while `A` is never passed to the
execution backend. -/
theorem propose_overwrite_executes_newest (exec : ExecOracle) (ai1 ai2 : AiOracle)
    (s : TermState) (pA pB A B : String)
    (h1 : ai1 pA s.cwd = .ok ⟨none, A⟩)
    (h2 : ai2 pB s.cwd = .ok ⟨none, B⟩) :
    (askAI ai2 pB (askAI ai1 pA s)).pending = some B
  ∧ ((approvePending exec (askAI ai2 pB (askAI ai1 pA s))).2.countP
       fun c => c.command == B) = 1
  ∧ (A ≠ B → A ≠ "pwd" →
      ((approvePending exec (askAI ai2 pB (askAI ai1 pA s))).2.countP
        fun c => c.command == A) = 0) := by
  have hs1 := askAI_ok ai1 pA A s h1
  have hcwd : (askAI ai1 pA s).cwd = s.cwd := by rw [hs1]
  have hs2 := askAI_ok ai2 pB B (askAI ai1 pA s) (by rw [hcwd]; exact h2)
  have hp : (askAI ai2 pB (askAI ai1 pA s)).pending = some B := by rw [hs2]
  have happ := approvePending_some exec (askAI ai2 pB (askAI ai1 pA s)) B hp
  refine ⟨hp, ?_, ?_⟩
  · rw [happ]
    exact runCommand_count_self ..
  · intro hAB hApwd
    rw [happ]
    exact runCommand_count_other _ _ _ _ hAB hApwd

/-- Witness for claim C6 at concrete oracles and proposals. -/
theorem propose_overwrite_executes_newest_witness :
    ((fun _ _ => .ok ⟨none, "echo A"⟩ : AiOracle) "a" "/workspaces" = .ok ⟨none, "echo A"⟩)
  ∧ ((askAI (fun _ _ => .ok ⟨none, "echo B"⟩) "b"
        (askAI (fun _ _ => .ok ⟨none, "echo A"⟩) "a"
          ⟨[], "", "/workspaces", "ai", none, false⟩)).pending = some "echo B"
     ∧ ((approvePending (fun _ _ => .ok ⟨none, some "done", none⟩)
          (askAI (fun _ _ => .ok ⟨none, "echo B"⟩) "b"
            (askAI (fun _ _ => .ok ⟨none, "echo A"⟩) "a"
              ⟨[], "", "/workspaces", "ai", none, false⟩))).2.countP
         fun c => c.command == "echo B") = 1
     ∧ ((approvePending (fun _ _ => .ok ⟨none, some "done", none⟩)
          (askAI (fun _ _ => .ok ⟨none, "echo B"⟩) "b"
            (askAI (fun _ _ => .ok ⟨none, "echo A"⟩) "a"
              ⟨[], "", "/workspaces", "ai", none, false⟩))).2.countP
         fun c => c.command == "echo A") = 0) := by
  have h := propose_overwrite_executes_newest
    (fun _ _ => .ok ⟨none, some "done", none⟩)
    (fun _ _ => .ok ⟨none, "echo A"⟩) (fun _ _ => .ok ⟨none, "echo B"⟩)
    ⟨[], "", "/workspaces", "ai", none, false⟩ "a" "b" "echo A" "echo B" rfl rfl
  exact ⟨rfl, h.1, h.2.1, h.2.2 (by decide) (by decide)⟩

/-- Claim C7: approving with no pending proposal has no effect (no request,
state and history unchanged), and a second approval after a single proposal is
a no-op, so the proposed command is executed exactly once. -/
theorem approve_guard_exactly_once (exec : ExecOracle) (s t : TermState) (cmd : String)
    (hs : s.pending = none) (ht : t.pending = some cmd) :
    approvePending exec s = (s, [])
  ∧ approvePending exec (approvePending exec t).1 = ((approvePending exec t).1, [])
  ∧ (((approvePending exec t).2
        ++ (approvePending exec (approvePending exec t).1).2).countP
       fun c => c.command == cmd) = 1 := by
  have hA := approvePending_none exec s hs
  have ht1 : (approvePending exec t).1.pending = none := by
    rw [approvePending_some exec t cmd ht, runCommand_pending]
  have hB := approvePending_none exec (approvePending exec t).1 ht1
  refine ⟨hA, hB, ?_⟩
  rw [hB]
  simp only [List.append_nil]
  rw [approvePending_some exec t cmd ht]
  exact runCommand_count_self ..

/-- Witness for claim C7: a gate with nothing pending and a gate holding
`ls`, against a concrete backend. -/
theorem approve_guard_exactly_once_witness :
    (⟨[], "", "/workspaces", "ai", none, false⟩ : TermState).pending = none
  ∧ (approvePending (fun _ _ => .ok ⟨none, some "done", none⟩)
       ⟨[], "", "/workspaces", "ai", none, false⟩
       = (⟨[], "", "/workspaces", "ai", none, false⟩, [])
     ∧ approvePending (fun _ _ => .ok ⟨none, some "done", none⟩)
         (approvePending (fun _ _ => .ok ⟨none, some "done", none⟩)
           ⟨[], "", "/workspaces", "ai", some "ls", false⟩).1
       = ((approvePending (fun _ _ => .ok ⟨none, some "done", none⟩)
            ⟨[], "", "/workspaces", "ai", some "ls", false⟩).1, [])
     ∧ (((approvePending (fun _ _ => .ok ⟨none, some "done", none⟩)
            ⟨[], "", "/workspaces", "ai", some "ls", false⟩).2
          ++ (approvePending (fun _ _ => .ok ⟨none, some "done", none⟩)
               (approvePending (fun _ _ => .ok ⟨none, some "done", none⟩)
                 ⟨[], "", "/workspaces", "ai", some "ls", false⟩).1).2).countP
         fun c => c.command == "ls") = 1) :=
  ⟨rfl, approve_guard_exactly_once (fun _ _ => .ok ⟨none, some "done", none⟩)
    ⟨[], "", "/workspaces", "ai", none, false⟩
    ⟨[], "", "/workspaces", "ai", some "ls", false⟩ "ls" rfl rfl⟩

/-- Claim C8: the working directory is updated only as a confirmed side effect
of a successful directory-change execution: it is unchanged for commands not
recognized as `cd` (and no resolution request is issued), unchanged when the
execution responds with an error, and after a recognized `cd` it is set to the
trimmed stdout reported by the second, synchronous `pwd` resolution request —
never to a client-computed value. -/
theorem cwd_update_confirmed_only (exec : ExecOracle) (cmd : String) (s : TermState) :
    (jsStartsWith cmd "cd " = false →
      (runCommand exec cmd s).1.cwd = s.cwd ∧ (runCommand exec cmd s).2 = [⟨cmd, s.cwd⟩])
  ∧ (∀ m, exec cmd s.cwd = .error m → (runCommand exec cmd s).1.cwd = s.cwd)
  ∧ (∀ data err, exec cmd s.cwd = .ok data → data.error = some err →
      (runCommand exec cmd s).1.cwd = s.cwd)
  ∧ (∀ data, jsStartsWith cmd "cd " = true → exec cmd s.cwd = .ok data → data.error = none →
      (runCommand exec cmd s).2
        = [⟨cmd, s.cwd⟩,
           ⟨"pwd", if jsStartsWith (jsTrim (jsSlice cmd 3)) "/" then jsTrim (jsSlice cmd 3)
                   else s.cwd ++ "/" ++ jsTrim (jsSlice cmd 3)⟩]
      ∧ (runCommand exec cmd s).1.cwd
        = (match exec "pwd" (if jsStartsWith (jsTrim (jsSlice cmd 3)) "/" then jsTrim (jsSlice cmd 3)
                             else s.cwd ++ "/" ++ jsTrim (jsSlice cmd 3)) with
           | .ok r => (match r.stdout with | some o => jsTrim o | none => s.cwd)
           | .error _ => s.cwd)) := by
  refine ⟨?_, ?_, ?_, ?_⟩
  · intro h
    simp only [runCommand]
    cases hx : exec cmd s.cwd with
    | error m => exact ⟨rfl, rfl⟩
    | ok data =>
      obtain ⟨derr, dout, dstderr⟩ := data
      cases derr with
      | some err => exact ⟨rfl, rfl⟩
      | none => simp [h]
  · intro m hm
    simp only [runCommand, hm]
  · intro data err hok hd
    obtain ⟨derr, dout, dstderr⟩ := data
    have hd2 : derr = some err := hd
    subst hd2
    simp only [runCommand, hok]
  · intro data hcd hok hdn
    obtain ⟨derr, dout, dstderr⟩ := data
    have hd2 : derr = none := hdn
    subst hd2
    cases hres : exec "pwd" (if jsStartsWith (jsTrim (jsSlice cmd 3)) "/" = true
        then jsTrim (jsSlice cmd 3)
        else s.cwd ++ "/" ++ jsTrim (jsSlice cmd 3)) with
    | error m => constructor <;> simp [runCommand, hok, hcd, hres]
    | ok r =>
      obtain ⟨rerr, rout, rstderr⟩ := r
      cases rout with
      | some o => constructor <;> simp [runCommand, hok, hcd, hres]
      | none => constructor <;> simp [runCommand, hok, hcd, hres]

/-- Witness for claim C8: `cd sub` against a backend whose `pwd` reports
`/workspaces/sub` with a trailing newline. -/
theorem cwd_update_confirmed_only_witness :
    (jsStartsWith "cd sub" "cd " = true)
  ∧ (runCommand
       (fun c _ => if c = "pwd" then .ok ⟨none, some "/workspaces/sub\n", none⟩
                   else .ok ⟨none, none, none⟩)
       "cd sub" ⟨[], "", "/workspaces", "raw", none, false⟩).2
      = [⟨"cd sub", "/workspaces"⟩, ⟨"pwd", "/workspaces/sub"⟩]
  ∧ (runCommand
       (fun c _ => if c = "pwd" then .ok ⟨none, some "/workspaces/sub\n", none⟩
                   else .ok ⟨none, none, none⟩)
       "cd sub" ⟨[], "", "/workspaces", "raw", none, false⟩).1.cwd
      = "/workspaces/sub" := by
  have h := (cwd_update_confirmed_only
    (fun c _ => if c = "pwd" then .ok ⟨none, some "/workspaces/sub\n", none⟩
                else .ok ⟨none, none, none⟩)
    "cd sub" ⟨[], "", "/workspaces", "raw", none, false⟩).2.2.2
    ⟨none, none, none⟩ (by decide) rfl rfl
  refine ⟨by decide, ?_, ?_⟩
  · exact h.1.trans (by decide)
  · exact h.2.trans (by decide)

/-- Claim C9: while a command execution is in flight (`loading`), any new
submission is rejected at the boundary: the state — including the history
log — is unchanged and no request is issued. -/
theorem submission_rejected_while_loading (exec : ExecOracle) (ai : AiOracle)
    (s : TermState) (h : s.loading = true) :
    handleSubmit exec ai s = (s, []) := by
  simp [handleSubmit, h]

/-- Witness for claim C9 at a concrete in-flight state. -/
theorem submission_rejected_while_loading_witness :
    (⟨[], "ls", "/workspaces", "raw", none, true⟩ : TermState).loading = true
  ∧ handleSubmit (fun _ _ => .ok ⟨none, some "done", none⟩)
      (fun _ _ => .ok ⟨none, "ls"⟩)
      ⟨[], "ls", "/workspaces", "raw", none, true⟩
    = (⟨[], "ls", "/workspaces", "raw", none, true⟩, []) :=
  ⟨rfl, submission_rejected_while_loading (fun _ _ => .ok ⟨none, some "done", none⟩)
    (fun _ _ => .ok ⟨none, "ls"⟩) ⟨[], "ls", "/workspaces", "raw", none, true⟩ rfl⟩

/-- Claim C10: an accepted submission first discards any pending proposal:
the outcome is exactly that of the same submission with nothing pending, a
submission routed directly to execution leaves nothing pending, and the old
pending command is never passed to the execution backend. -/
theorem submit_discards_pending (exec : ExecOracle) (ai : AiOracle) (s : TermState)
    (h1 : (jsTrim s.input == "") = false) (h2 : s.loading = false) :
    handleSubmit exec ai s = handleSubmit exec ai { s with pending := none }
  ∧ ((s.mode = "raw" ∨ looksRaw (jsTrim s.input) = true) →
      (handleSubmit exec ai s).1.pending = none)
  ∧ (∀ p : String, p ≠ jsTrim s.input → p ≠ "pwd" →
      ((handleSubmit exec ai s).2.countP fun c => c.command == p) = 0) := by
  refine ⟨?_, ?_, ?_⟩
  · simp [handleSubmit, h1, h2]
  · intro hm
    by_cases hr : s.mode = "raw"
    · simp [handleSubmit, h1, h2, hr, runCommand_pending]
    · rcases hm with hm | hl
      · exact absurd hm hr
      · simp [handleSubmit, h1, h2, hr, hl, runCommand_pending]
  · intro p hp1 hp2
    by_cases hr : s.mode = "raw"
    · have hh : handleSubmit exec ai s
          = runCommand exec (jsTrim s.input) { s with input := "", pending := none } := by
        simp [handleSubmit, h1, h2, hr]
      rw [hh]
      exact runCommand_count_other _ _ _ _ hp1 hp2
    · by_cases hl : looksRaw (jsTrim s.input) = true
      · have hh : handleSubmit exec ai s
            = runCommand exec (jsTrim s.input) { s with input := "", pending := none } := by
          simp [handleSubmit, h1, h2, hr, hl]
        rw [hh]
        exact runCommand_count_other _ _ _ _ hp1 hp2
      · have hh : handleSubmit exec ai s
            = (askAI ai (jsTrim s.input) { s with input := "", pending := none }, []) := by
          simp [handleSubmit, h1, h2, hr, hl]
        rw [hh]
        simp

/-- Witness for claim C10: submitting a raw-looking command while an
AI-proposed `rm` command is pending. -/
theorem submit_discards_pending_witness :
    (((jsTrim " ls -la ") == "") = false)
  ∧ ((handleSubmit (fun _ _ => .ok ⟨none, some "done", none⟩)
        (fun _ _ => .ok ⟨none, "ls"⟩)
        ⟨[], " ls -la ", "/workspaces", "ai", some "rm -rf /tmp/x", false⟩).1.pending = none
     ∧ ((handleSubmit (fun _ _ => .ok ⟨none, some "done", none⟩)
          (fun _ _ => .ok ⟨none, "ls"⟩)
          ⟨[], " ls -la ", "/workspaces", "ai", some "rm -rf /tmp/x", false⟩).2.countP
         fun c => c.command == "rm -rf /tmp/x") = 0) := by
  have h := submit_discards_pending (fun _ _ => .ok ⟨none, some "done", none⟩)
    (fun _ _ => .ok ⟨none, "ls"⟩)
    ⟨[], " ls -la ", "/workspaces", "ai", some "rm -rf /tmp/x", false⟩
    (by decide) rfl
  exact ⟨by decide, h.2.1 (Or.inr (by decide)), h.2.2 "rm -rf /tmp/x" (by decide) (by decide)⟩

/-! ## Streaming UTF-8 decoder lemmas -/

/-- Emitted codepoints accumulate on the left of the running output. -/
theorem u8run_out (bytes : List Nat) : ∀ p o : List Nat,
    u8run (p, o) bytes = ((u8run (p, []) bytes).1, o ++ (u8run (p, []) bytes).2) := by
  induction bytes with
  | nil => intro p o; simp [u8run]
  | cons b bs ih =>
    intro p o
    show u8run ((u8step p b).1, o ++ (u8step p b).2) bs = _
    rw [ih]
    conv_rhs =>
      rw [show u8run (p, []) (b :: bs)
            = u8run ((u8step p b).1, [] ++ (u8step p b).2) bs from rfl, ih]
    simp

/-- The byte-at-a-time decoder is a fold, hence composes over concatenation. -/
theorem u8run_append (st : List Nat × List Nat) (a b : List Nat) :
    u8run st (a ++ b) = u8run (u8run st a) b := by
  unfold u8run
  rw [List.foldl_append]

/-- Decoding a concatenation of two byte chunks: the pending buffer threads
through and the emitted codepoints concatenate. -/
theorem u8chunk_append (p a b : List Nat) :
    u8chunk p (a ++ b)
      = ((u8chunk (u8chunk p a).1 b).1,
         (u8chunk p a).2 ++ (u8chunk (u8chunk p a).1 b).2) := by
  unfold u8chunk
  rw [u8run_append,
    show u8run (p, []) a = ((u8run (p, []) a).1, (u8run (p, []) a).2) from rfl,
    u8run_out]

/-- Feeding the UTF-8 encoding of one codepoint to a clean decoder emits
exactly that codepoint and leaves the decoder clean. -/
theorem u8chunk_encChar (c : Nat) : u8chunk [] (encChar c) = ([], [c]) := by
  rcases Nat.lt_or_ge c 128 with hc1 | hc1
  · have k1 : c < 192 := by omega
    simp [encChar, u8chunk, u8run, u8step, expLen, decVal, leadVal, hc1, k1]
  · rcases Nat.lt_or_ge c 2048 with hc2 | hc2
    · have k0 : ¬ c < 128 := by omega
      have k1 : ¬ (192 + c / 64 < 192) := by omega
      have k2 : 192 + c / 64 < 224 := by omega
      have k3 : (192 + c / 64 - 192) * 64 + (128 + c % 64 - 128) = c := by omega
      simp [encChar, u8chunk, u8run, u8step, expLen, decVal, leadVal, hc2, k0, k1, k2, k3]
      omega
    · rcases Nat.lt_or_ge c 65536 with hc3 | hc3
      · have k0 : ¬ c < 128 := by omega
        have k0b : ¬ c < 2048 := by omega
        have k1 : ¬ (224 + c / 4096 < 192) := by omega
        have k2 : ¬ (224 + c / 4096 < 224) := by omega
        have k3 : 224 + c / 4096 < 240 := by omega
        have k4 : ((224 + c / 4096 - 224) * 64 + (128 + c / 64 % 64 - 128)) * 64
            + (128 + c % 64 - 128) = c := by omega
        simp [encChar, u8chunk, u8run, u8step, expLen, decVal, leadVal,
          hc3, k0, k0b, k1, k2, k3, k4]
        omega
      · have k0 : ¬ c < 128 := by omega
        have k0b : ¬ c < 2048 := by omega
        have k0c : ¬ c < 65536 := by omega
        have k1 : ¬ (240 + c / 262144 < 192) := by omega
        have k2 : ¬ (240 + c / 262144 < 224) := by omega
        have k3 : ¬ (240 + c / 262144 < 240) := by omega
        have k4 : (((240 + c / 262144 - 240) * 64 + (128 + c / 4096 % 64 - 128)) * 64
            + (128 + c / 64 % 64 - 128)) * 64 + (128 + c % 64 - 128) = c := by omega
        simp [encChar, u8chunk, u8run, u8step, expLen, decVal, leadVal,
          k0, k0b, k0c, k1, k2, k3, k4]
        omega

/-- A clean decoder fed a whole UTF-8 encoded text emits exactly that text. -/
theorem u8chunk_encode (t : List Nat) : u8chunk [] (utf8Encode t) = ([], t) := by
  induction t with
  | nil => simp [utf8Encode, u8chunk, u8run]
  | cons c cs ih =>
    rw [show utf8Encode (c :: cs) = encChar c ++ utf8Encode cs by simp [utf8Encode],
      u8chunk_append, u8chunk_encChar]
    simp [ih]

/-! ## Line splitter lemmas -/

/-- The retained fragment never contains a newline. -/
theorem splitCR_frag_no_nl (l : List Nat) : 10 ∉ (splitCR l).2 := by
  induction l with
  | nil => simp [splitCR]
  | cons c cs ih =>
    simp only [splitCR]
    by_cases hc : c = 10
    · simp [hc, ih]
    · cases h : (splitCR cs).1 with
      | nil =>
        simp only [if_neg hc, h]
        intro hmem
        rcases List.mem_cons.mp hmem with h10 | h10
        · exact hc h10.symm
        · exact ih h10
      | cons l ls => simp [if_neg hc, h, ih]

/-- A newline-free text completes no line: it is all fragment. -/
theorem splitCR_no_nl (l : List Nat) (h : 10 ∉ l) : splitCR l = ([], l) := by
  induction l with
  | nil => rfl
  | cons c cs ih =>
    have hc : ¬ c = 10 := fun hc => h (hc ▸ List.mem_cons_self 10 cs)
    have hcs : 10 ∉ cs := fun hm => h (List.mem_cons_of_mem c hm)
    simp only [splitCR, if_neg hc, ih hcs]

/-- Splitting a concatenation: the first part's lines come out unchanged, and
its fragment glues onto the second part's first line or fragment. -/
theorem splitCR_append (xs ys : List Nat) :
    (splitCR (xs ++ ys)).1
      = (splitCR xs).1 ++ (glue (splitCR xs).2 (splitCR ys).1 (splitCR ys).2).1
  ∧ (splitCR (xs ++ ys)).2
      = (glue (splitCR xs).2 (splitCR ys).1 (splitCR ys).2).2 := by
  induction xs with
  | nil =>
    cases h : (splitCR ys).1 with
    | nil => simp [splitCR, glue, h]
    | cons a as => simp [splitCR, glue, h]
  | cons c cs ih =>
    obtain ⟨ih1, ih2⟩ := ih
    by_cases hc : c = 10
    · constructor <;>
        simp [List.cons_append, splitCR, if_pos hc, ih1, ih2]
    · simp only [List.cons_append, splitCR, if_neg hc, List.append_eq]
      rw [ih1, ih2]
      cases h1 : (splitCR cs).1 with
      | nil =>
        cases h2 : (splitCR ys).1 with
        | nil => simp [glue]
        | cons a as => simp [glue]
      | cons l ls => simp [glue]

/-! ## Decode loop lemmas -/

/-- Processing two text chunks against the line buffer in sequence is the
same as processing their concatenation. -/
theorem procText_append (o : List (List Nat)) (b t1 t2 : List Nat) :
    procText (procText (o, b) t1) t2 = procText (o, b) (t1 ++ t2) := by
  obtain ⟨hA1, hA2⟩ := splitCR_append (splitCR (b ++ t1)).2 t2
  rw [splitCR_no_nl _ (splitCR_frag_no_nl (b ++ t1))] at hA1 hA2
  obtain ⟨hB1, hB2⟩ := splitCR_append (b ++ t1) t2
  simp only [procText]
  rw [← List.append_assoc b t1 t2, hB1, hB2, hA1, hA2]
  simp [emitLines, List.filterMap_append, List.append_assoc]

/-- The decode loop over any chunk list equals one pass of the streaming
UTF-8 decoder followed by one pass of the line splitter over all the emitted
text, provided the starting line buffer holds no newline. -/
theorem runLoop_sim (chunks : List (List Nat)) : ∀ d : DecodeState, 10 ∉ d.buf →
    chunks.foldl loopStep d
      = ⟨(u8chunk d.pend chunks.flatten).1,
         (procText (d.out, d.buf) (u8chunk d.pend chunks.flatten).2).2,
         (procText (d.out, d.buf) (u8chunk d.pend chunks.flatten).2).1⟩ := by
  induction chunks with
  | nil =>
    intro d hb
    simp [u8chunk, u8run, procText, splitCR_no_nl _ hb, emitLines]
  | cons ch rest ih =>
    intro d hb
    have hstep : loopStep d ch
        = ⟨(u8chunk d.pend ch).1,
           (procText (d.out, d.buf) (u8chunk d.pend ch).2).2,
           (procText (d.out, d.buf) (u8chunk d.pend ch).2).1⟩ := rfl
    rw [List.foldl_cons, ih (loopStep d ch)
      (by rw [hstep]; exact splitCR_frag_no_nl _), hstep]
    rw [show (ch :: rest).flatten = ch ++ rest.flatten from rfl,
      u8chunk_append d.pend ch rest.flatten]
    rw [show procText ((procText (d.out, d.buf) (u8chunk d.pend ch).2).1,
          (procText (d.out, d.buf) (u8chunk d.pend ch).2).2)
            (u8chunk (u8chunk d.pend ch).1 rest.flatten).2
        = procText (procText (d.out, d.buf) (u8chunk d.pend ch).2)
            (u8chunk (u8chunk d.pend ch).1 rest.flatten).2 from rfl,
      procText_append]

/-- Splitting one well-formed frame off the front of a stream. -/
theorem splitCR_line (l r : List Nat) (h : 10 ∉ l) :
    splitCR (l ++ 10 :: r) = (l :: (splitCR r).1, (splitCR r).2) := by
  induction l with
  | nil => simp [splitCR]
  | cons c cs ih =>
    have hc : ¬ c = 10 := fun hc => h (hc ▸ List.mem_cons_self 10 cs)
    have hcs : 10 ∉ cs := fun hm => h (List.mem_cons_of_mem c hm)
    simp only [List.cons_append, splitCR, if_neg hc, List.append_eq]
    rw [ih hcs]

/-- Splitting the full stream text: one complete line per frame body, in
order, and the trailing fragment is the unterminated tail. -/
theorem splitCR_stream (bodies : List (List Nat)) (frag : List Nat)
    (hb : ∀ b ∈ bodies, 10 ∉ b) (hf : 10 ∉ frag) :
    splitCR (streamText bodies frag)
      = (bodies.map (fun b => dataMarker ++ b), frag) := by
  induction bodies with
  | nil => simp [streamText, splitCR_no_nl frag hf]
  | cons b bs ih =>
    have h1 : 10 ∉ dataMarker ++ b := by
      intro hmem
      rcases List.mem_append.mp hmem with h | h
      · exact (by decide : (10 : Nat) ∉ dataMarker) h
      · exact hb b (List.mem_cons_self b bs) h
    have hrw : streamText (b :: bs) frag
        = (dataMarker ++ b) ++ 10 :: streamText bs frag := by
      simp [streamText, frameOf, List.append_assoc]
    rw [hrw, splitCR_line _ _ h1,
      ih (fun x hx => hb x (List.mem_cons_of_mem b hx))]
    simp

/-- Every line of the stream carries the marker, so each is delivered with
the marker stripped. -/
theorem emitLines_marked (bodies : List (List Nat)) :
    emitLines (bodies.map fun b => dataMarker ++ b) = bodies := by
  induction bodies with
  | nil => rfl
  | cons b bs ih =>
    have hpre : dataMarker.isPrefixOf (dataMarker ++ b) = true := by
      simp [dataMarker, List.isPrefixOf]
    have hdrop : (dataMarker ++ b).drop 6 = b := rfl
    simp only [List.map_cons, emitLines, List.filterMap_cons, hpre, if_pos, hdrop]
    simp only [emitLines] at ih
    rw [ih]

/-- Claim C3: for every list of well-formed frame bodies, every trailing
newline-unterminated fragment, and every way of splitting the UTF-8 encoding
of their concatenation into byte chunks (including splits inside a multi-byte
character or inside a line), the decode loop delivers exactly the frame
payloads, in order, to the parse/dispatch step — and nothing else; the
trailing fragment is never delivered and remains in the buffer at end of
stream. -/
theorem decoder_chunking_exact (bodies : List (List Nat)) (frag : List Nat)
    (chunks : List (List Nat))
    (hb : ∀ b ∈ bodies, 10 ∉ b) (hf : 10 ∉ frag)
    (hchunks : chunks.flatten = utf8Encode (streamText bodies frag)) :
    (runLoop chunks).out = bodies ∧ (runLoop chunks).buf = frag := by
  have hsim := runLoop_sim chunks ⟨[], [], []⟩ (by simp)
  unfold runLoop
  rw [hsim, hchunks, u8chunk_encode]
  simp only [procText, List.nil_append]
  rw [splitCR_stream bodies frag hb hf]
  simp [emitLines_marked]

/-- Witness for claim C3: two chunk boundaries, one inside the line and one
inside the two-byte UTF-8 encoding of codepoint 233, for one frame with body
`[233]` and the trailing fragment `[104]`. -/
theorem decoder_chunking_exact_witness :
    (∀ b ∈ [[233]], (10 : Nat) ∉ b) ∧ ((10 : Nat) ∉ [104])
  ∧ (runLoop [[100, 97, 116], [97, 58, 32, 195], [169, 10, 104]]).out = [[233]]
  ∧ (runLoop [[100, 97, 116], [97, 58, 32, 195], [169, 10, 104]]).buf = [104] := by
  have h := decoder_chunking_exact [[233]] [104]
    [[100, 97, 116], [97, 58, 32, 195], [169, 10, 104]]
    (by decide) (by decide) (by decide)
  exact ⟨by decide, by decide, h.1, h.2⟩

end RepoCode
